import Mathlib

/-!
# Verification of the smart-stock-lab scoring and parsing layer

Shallow embedding of `src/app.py` (a single-file stock analyzer).
Python floats (IEEE binary64) are modelled by `PFloat`: a finite value
represented exactly as a rational, a signed infinity, or NaN.  Finite-float
arithmetic is modelled exactly over `ℚ`; the only arithmetic the scored code
performs is one multiplication by `100` and threshold comparisons, none of
which is affected by binary64 rounding at the values the claims mention.
Vendor JSON payloads are modelled by `JVal`.  A Python function that can
raise is modelled as returning `Option`, with `none` meaning an exception
escapes.
-/

/-- Model of a Python float: finite (exact rational), ±infinity, or NaN. -/
inductive PFloat where
  | finite (q : ℚ)
  | inf (neg : Bool)
  | nan
deriving DecidableEq

/-- Python truthiness of a float: `bool(x)` is `False` exactly for `0.0`
(NaN and the infinities are truthy). -/
def PFloat.isTruthy : PFloat → Bool
  | PFloat.finite q => if q = 0 then false else true
  | _ => true

/-- IEEE `<` on floats: any comparison with NaN is `False`. -/
def PFloat.lt : PFloat → PFloat → Bool
  | PFloat.nan, _ => false
  | _, PFloat.nan => false
  | PFloat.finite a, PFloat.finite b => if a < b then true else false
  | PFloat.inf n, PFloat.finite _ => n
  | PFloat.finite _, PFloat.inf n => !n
  | PFloat.inf a, PFloat.inf b => a && !b

/-- IEEE `<=` on floats: any comparison with NaN is `False`. -/
def PFloat.le : PFloat → PFloat → Bool
  | PFloat.nan, _ => false
  | _, PFloat.nan => false
  | PFloat.finite a, PFloat.finite b => if a ≤ b then true else false
  | PFloat.inf n, PFloat.finite _ => n
  | PFloat.finite _, PFloat.inf n => !n
  | PFloat.inf a, PFloat.inf b => a || !b

/-- IEEE `>` on floats, i.e. the swapped `<` (both are `False` against NaN). -/
def PFloat.gt (a b : PFloat) : Bool := PFloat.lt b a

/-- Float multiplication (finite products taken exactly over `ℚ`). -/
def PFloat.mul : PFloat → PFloat → PFloat
  | PFloat.nan, _ => PFloat.nan
  | _, PFloat.nan => PFloat.nan
  | PFloat.finite a, PFloat.finite b => PFloat.finite (a * b)
  | PFloat.inf n, PFloat.finite q =>
      if q = 0 then PFloat.nan else PFloat.inf (xor n (decide (q < 0)))
  | PFloat.finite q, PFloat.inf n =>
      if q = 0 then PFloat.nan else PFloat.inf (xor n (decide (q < 0)))
  | PFloat.inf a, PFloat.inf b => PFloat.inf (xor a b)

/-- A float is finite iff it is neither an infinity nor NaN. -/
def PFloat.isFinite : PFloat → Bool
  | PFloat.finite _ => true
  | _ => false

/-! ## CPython `float(str)` grammar

`float` on a string strips surrounding whitespace, takes an optional sign,
and then accepts `inf`/`infinity`/`nan` (case-insensitively) or a decimal
literal `digits [. digits] [(e|E) [sign] digits]` with at least one mantissa
digit.  (CPython additionally allows underscore digit separators and Unicode
digits/whitespace; no vendor value and no claim involves those, and they are
not modelled.) -/

/-- ASCII whitespace stripped by `float(str)`. -/
def isSpaceChar (c : Char) : Bool :=
  c = ' ' || c = '\t' || c = '\n' || c = '\r' || c = '\x0b' || c = '\x0c'

/-- Strip leading and trailing whitespace. -/
def stripChars (l : List Char) : List Char :=
  ((l.dropWhile isSpaceChar).reverse.dropWhile isSpaceChar).reverse

/-- Consume an optional sign; `true` means negative. -/
def splitSign : List Char → Bool × List Char
  | '+' :: rest => (false, rest)
  | '-' :: rest => (true, rest)
  | l => (false, l)

/-- Split at the first character satisfying `p`: the part before it, and
(if found) the part after it. -/
def splitFirst (p : Char → Bool) : List Char → List Char × Option (List Char)
  | [] => ([], none)
  | c :: cs =>
    if p c then ([], some cs)
    else
      let r := splitFirst p cs
      (c :: r.1, r.2)

/-- Value of a (non-empty) digit string, most significant digit first. -/
def digitsVal (l : List Char) : ℕ :=
  l.foldl (fun acc c => acc * 10 + (c.toNat - 48)) 0

/-- Parse an unsigned decimal literal `digits [. digits] [(e|E) [sign] digits]`
with at least one mantissa digit, exactly (no rounding). -/
def parseDecimal (l : List Char) : Option ℚ :=
  let ms := splitFirst (fun c => c = 'e' || c = 'E') l
  let ip := splitFirst (fun c => c = '.') ms.1
  let intPart := ip.1
  let fracPart := (ip.2).getD []
  if intPart.all Char.isDigit && fracPart.all Char.isDigit
      && !(intPart.isEmpty && fracPart.isEmpty) then
    let base : ℚ :=
      (digitsVal intPart : ℚ) + (digitsVal fracPart : ℚ) / ((10 : ℚ) ^ fracPart.length)
    match ms.2 with
    | none => some base
    | some ex =>
      let se := splitSign ex
      if !se.2.isEmpty && se.2.all Char.isDigit then
        some (if se.1 then base / 10 ^ digitsVal se.2 else base * 10 ^ digitsVal se.2)
      else none
  else none

/-- The binary64 overflow threshold: an exact decimal value whose magnitude
is at least `2^1024 - 2^970` (the midpoint above the largest finite double,
which ties-to-even rounds up) converts to an infinity; below it the result
is finite.  CPython `float("1e400")` is `inf`, not an error. -/
def overflowBound : ℚ := 2 ^ 1024 - 2 ^ 970

/-- Attach the sign to a parsed (nonnegative) decimal value, overflowing to
the correctly signed infinity at or beyond the binary64 range. -/
def clampFinite (neg : Bool) (q : ℚ) : PFloat :=
  if q < overflowBound then PFloat.finite (if neg then -q else q)
  else PFloat.inf neg

/-- Model of CPython `float` applied to a string: `none` means `ValueError`.
Values beyond the binary64 range overflow to infinities; in-range values are
kept as exact rationals (rounding to the nearest double is not modelled and
no claim depends on it). -/
def pyStrToFloat (s : String) : Option PFloat :=
  let body := splitSign (stripChars s.data)
  let low := body.2.map Char.toLower
  if low = "inf".data || low = "infinity".data then some (PFloat.inf body.1)
  else if low = "nan".data then some PFloat.nan
  else match parseDecimal body.2 with
    | some q => some (clampFinite body.1 q)
    | none => none

/-! ## Vendor JSON values -/

/-- A JSON value as Python sees it after `requests` deserialization.
Finite JSON numbers are carried exactly as rationals. -/
inductive JVal where
  | null
  | bool (b : Bool)
  | num (q : ℚ)
  | str (s : String)
  | arr (xs : List JVal)
  | obj (kvs : List (String × JVal))

/-- Association-list lookup, first match wins (Python dict keys are unique). -/
def lookupKey (k : String) : List (String × JVal) → Option JVal
  | [] => none
  | kv :: rest => if kv.1 = k then some kv.2 else lookupKey k rest

/-- `d.get(k)` on a value already known to be a mapping, `none` when the key
is absent.  Only the accessors below build on it; the parse layer goes
through `JVal.dictGet`, which models the `AttributeError` Python raises when
`.get` is applied to a non-mapping. -/
def JVal.getOpt : JVal → String → Option JVal
  | JVal.obj kvs, k => lookupKey k kvs
  | _, _ => none

/-- `d.get(k, default)` on a mapping payload (the fundamentals record and
the row records, which the code reaches only as dicts). -/
def JVal.getD (v : JVal) (k : String) (dflt : JVal) : JVal :=
  (v.getOpt k).getD dflt

/-- `d.get(k)` with Python's implicit `None` default, on a mapping payload. -/
def JVal.getKey (v : JVal) (k : String) : JVal :=
  v.getD k JVal.null

/-- `v.get(k, dflt)` on an arbitrary payload: `none` models the
`AttributeError` Python raises when `v` is not a dict. -/
def JVal.dictGet (v : JVal) (k : String) (dflt : JVal) : Option JVal :=
  match v with
  | JVal.obj kvs => some ((lookupKey k kvs).getD dflt)
  | _ => none

/-- Python truthiness of a JSON value. -/
def JVal.isTruthy : JVal → Bool
  | JVal.null => false
  | JVal.bool b => b
  | JVal.num q => if q = 0 then false else true
  | JVal.str s => !(s = "")
  | JVal.arr xs => !xs.isEmpty
  | JVal.obj kvs => !kvs.isEmpty

/-- Model of CPython `float(x)` on a JSON-shaped value: numbers and booleans
convert, strings go through the string grammar, and `None`/lists/dicts
raise `TypeError` (`none`). -/
def pyFloat : JVal → Option PFloat
  | JVal.num q => some (PFloat.finite q)
  | JVal.bool b => some (PFloat.finite (if b then 1 else 0))
  | JVal.str s => pyStrToFloat s
  | _ => none

/-- `safe_float` from `src/app.py` lines 33–37: `float(x)`, with any
conversion failure absorbed into the caller-supplied default. -/
def safe_float (x : JVal) (dflt : PFloat) : PFloat :=
  match pyFloat x with
  | some f => f
  | none => dflt

/-! ## Scoring (src/app.py lines 167–182) -/

/-- ROE normalization, line 169: `roe = roe_raw * 100 if roe_raw <= 1 else
roe_raw` (Alpha Vantage often gives ROE as a decimal fraction). -/
def roeNormalize (r : PFloat) : PFloat :=
  if PFloat.le r (PFloat.finite 1) then PFloat.mul r (PFloat.finite 100) else r

/-- The quant score, lines 174–182: start at 0 and add 25 for each of the
four truthy-and-within-threshold conditions, in source order. -/
def score (pe roe debt beta : PFloat) : ℕ :=
  let s0 := 0
  let s1 := if pe.isTruthy && pe.lt (PFloat.finite 20) then s0 + 25 else s0
  let s2 := if roe.isTruthy && roe.gt (PFloat.finite 15) then s1 + 25 else s1
  let s3 := if debt.isTruthy && debt.lt (PFloat.finite 120) then s2 + 25 else s2
  if beta.isTruthy && beta.lt (PFloat.finite (13 / 10)) then s3 + 25 else s3

/-- Line 167: `pe = safe_float(ov.get("PERatio"), 0)`. -/
def peOf (ov : JVal) : PFloat := safe_float (ov.getKey "PERatio") (PFloat.finite 0)

/-- Line 168: `roe_raw = safe_float(ov.get("ReturnOnEquityTTM"), 0)`. -/
def roeRawOf (ov : JVal) : PFloat :=
  safe_float (ov.getKey "ReturnOnEquityTTM") (PFloat.finite 0)

/-- Lines 168–169 composed: the normalized ROE percentage. -/
def roeOf (ov : JVal) : PFloat := roeNormalize (roeRawOf ov)

/-- Line 170: `debt = safe_float(ov.get("DebtToEquityRatio"), 0)`. -/
def debtOf (ov : JVal) : PFloat :=
  safe_float (ov.getKey "DebtToEquityRatio") (PFloat.finite 0)

/-- Line 171: `beta = safe_float(ov.get("Beta"), 1)` — note the default 1. -/
def betaOf (ov : JVal) : PFloat := safe_float (ov.getKey "Beta") (PFloat.finite 1)

/-! ## Price-series parsing (src/app.py lines 104–112)

The date index: Alpha Vantage keys its daily series by `YYYY-MM-DD` strings.
`pd.to_datetime` raises on a key it cannot parse as a date; we model the
strict ISO `YYYY-MM-DD` format the vendor uses (a failed key, like any raised
exception, makes the whole parse return `none`).  A parsed date is encoded as
the natural number `(year * 100 + month) * 100 + day`, which orders dates
chronologically. -/

/-- Numeric value of a digit character. -/
def digitChar (c : Char) : ℕ := c.toNat - 48

/-- Gregorian leap-year rule. -/
def isLeapYear (y : ℕ) : Bool :=
  (y % 4 == 0 && y % 100 != 0) || y % 400 == 0

/-- Number of days in a month, as the datetime library validates it. -/
def daysInMonth (y m : ℕ) : ℕ :=
  if m == 2 then (if isLeapYear y then 29 else 28)
  else if m == 4 || m == 6 || m == 9 || m == 11 then 30
  else 31

/-- Parse a strict `YYYY-MM-DD` date string into its chronological ordinal,
rejecting out-of-range months and calendar-invalid days (such as
`2024-02-30`) as `pd.to_datetime` does with a `ValueError`. -/
def parseDate (s : String) : Option ℕ :=
  match s.data with
  | [y1, y2, y3, y4, '-', m1, m2, '-', d1, d2] =>
    if y1.isDigit && y2.isDigit && y3.isDigit && y4.isDigit
        && m1.isDigit && m2.isDigit && d1.isDigit && d2.isDigit then
      let y := ((digitChar y1 * 10 + digitChar y2) * 10 + digitChar y3) * 10 + digitChar y4
      let mo := digitChar m1 * 10 + digitChar m2
      let da := digitChar d1 * 10 + digitChar d2
      if 1 ≤ mo && mo ≤ 12 && 1 ≤ da && da ≤ daysInMonth y mo then
        some ((y * 100 + mo) * 100 + da)
      else none
    else none
  | _ => none

/-- Index and validate the rows of the time-series mapping:
`pd.DataFrame.from_dict(ts, orient="index")` followed by
`df.index = pd.to_datetime(df.index)`.  A key that is not a date, or a row
that is not a record, raises (`none`); otherwise each row is keyed by its
date ordinal. -/
def parseRows : List (String × JVal) → Option (List (ℕ × JVal))
  | [] => some []
  | kv :: rest =>
    match parseDate kv.1, kv.2, parseRows rest with
    | some d, JVal.obj fields, some rows => some ((d, JVal.obj fields) :: rows)
    | _, _, _ => none

/-- Row order used by `df.sort_index()`: compare date ordinals. -/
def rowLE (a b : ℕ × JVal) : Prop := a.1 ≤ b.1

instance : DecidableRel rowLE := fun a b => inferInstanceAs (Decidable (a.1 ≤ b.1))

instance : IsTotal (ℕ × JVal) rowLE := ⟨fun a b => Nat.le_total a.1 b.1⟩

instance : IsTrans (ℕ × JVal) rowLE := ⟨fun _ _ _ => Nat.le_trans⟩

/-- `pd.to_numeric(value, errors="coerce")` on one cell: numbers convert and
anything unconvertible becomes the missing value NaN. -/
def coerceNumeric (v : JVal) : PFloat :=
  match pyFloat v with
  | some f => f
  | none => PFloat.nan

/-- Line 111 per row: the `"4. close"` field coerced to a number, with
coercion failures (and absent fields) becoming NaN. -/
def rowClose (row : JVal) : PFloat := coerceNumeric (row.getKey "4. close")

/-- `parse_price_df` from src/app.py lines 104–112, restricted to the
date/close content the callers use: `.get` on a non-mapping payload raises;
an absent or falsy series gives an empty frame; otherwise the rows are
indexed by parsed date (raising on non-date keys), sorted by the index, and
the close column is numerically coerced.  `none` models an escaped
exception. -/
def parse_price_df (raw : JVal) : Option (List (ℕ × PFloat)) :=
  match raw.dictGet "Time Series (Daily)" (JVal.obj []) with
  | none => none
  | some ts =>
    if ts.isTruthy then
      match ts with
      | JVal.obj kvs =>
        match parseRows kvs with
        | some rows =>
          some ((List.insertionSort rowLE rows).map (fun r => (r.1, rowClose r.2)))
        | none => none
      | _ => none
    else some []

/-! ## Macro-rate parsing (src/app.py lines 115–119) -/

/-- `parse_us10y` from src/app.py lines 115–119: take the first observation's
`"value"` and coerce it, with `np.nan` both as the empty-payload sentinel and
as the coercion default.  `.get` on a non-mapping payload, and indexing or
attribute access on a malformed truthy `observations`, raise (`none`). -/
def parse_us10y (raw : JVal) : Option PFloat :=
  match raw.dictGet "observations" (JVal.arr []) with
  | none => none
  | some obs =>
    if obs.isTruthy then
      match obs with
      | JVal.arr (o :: _) =>
        match o with
        | JVal.obj fields => some (safe_float ((JVal.obj fields).getKey "value") PFloat.nan)
        | _ => none
      | _ => none
    else some PFloat.nan

/-! ## Claim theorems -/

/-- C1: for every quadruple of coerced inputs, the quant score is the sum of
four independent 25-point contributions (25 for each field that is truthy and
within its threshold: P/E < 20, ROE% > 15, debt < 120, beta < 1.3), so the
output is always one of 0, 25, 50, 75, 100; the function is a total pure
function of its four arguments. -/
theorem score_sum_and_range (pe roe debt beta : PFloat) :
    score pe roe debt beta =
      (if pe.isTruthy && pe.lt (PFloat.finite 20) then 25 else 0)
      + (if roe.isTruthy && roe.gt (PFloat.finite 15) then 25 else 0)
      + (if debt.isTruthy && debt.lt (PFloat.finite 120) then 25 else 0)
      + (if beta.isTruthy && beta.lt (PFloat.finite (13 / 10)) then 25 else 0)
    ∧ score pe roe debt beta ∈ [0, 25, 50, 75, 100] := by
  dsimp only [score]
  constructor
  · split_ifs <;> norm_num
  · split_ifs <;> simp

/-- C2: a field that is exactly 0 (in particular the default-on-failure 0
from coercion) contributes nothing to the quant score even though 0 would
numerically satisfy the threshold (0 < 20 holds); in particular
score(pe=0, roe=20, debt=50, beta=0.8) = 75. -/
theorem score_zero_suppression (roe debt beta : PFloat) :
    PFloat.lt (PFloat.finite 0) (PFloat.finite 20) = true
    ∧ score (PFloat.finite 0) roe debt beta =
        (if roe.isTruthy && roe.gt (PFloat.finite 15) then 25 else 0)
        + (if debt.isTruthy && debt.lt (PFloat.finite 120) then 25 else 0)
        + (if beta.isTruthy && beta.lt (PFloat.finite (13 / 10)) then 25 else 0)
    ∧ score (PFloat.finite 0) (PFloat.finite 20) (PFloat.finite 50)
        (PFloat.finite (8 / 10)) = 75 := by
  refine ⟨by decide, ?_, by norm_num [score, PFloat.isTruthy, PFloat.lt, PFloat.gt]⟩
  have h0 : (PFloat.finite 0).isTruthy = false := rfl
  cases hroe : roe.isTruthy && roe.gt (PFloat.finite 15) <;>
    cases hdebt : debt.isTruthy && debt.lt (PFloat.finite 120) <;>
      cases hbeta : beta.isTruthy && beta.lt (PFloat.finite (13 / 10)) <;>
        simp [score, h0, hroe, hdebt, hbeta]

/-- C3: field coercion is total and default-absorbing: whenever conversion of
`x` fails, `safe_float x d = d` for every caller-supplied default `d` (and
when conversion succeeds the converted value is returned); conversion does
fail on an absent value (`None`), on the vendor sentinel string `"None"`, and
on non-numeric strings. -/
theorem safe_float_total_default (x : JVal) (d : PFloat) :
    (pyFloat x = none → safe_float x d = d)
    ∧ (∀ f, pyFloat x = some f → safe_float x d = f)
    ∧ pyFloat JVal.null = none
    ∧ pyFloat (JVal.str "None") = none
    ∧ pyFloat (JVal.str "not a number") = none := by
  refine ⟨fun h => ?_, fun f h => ?_, rfl, by decide, by decide⟩
  · simp [safe_float, h]
  · simp [safe_float, h]

/-- Witness for C3 at the vendor sentinel `"None"` with default 7. -/
theorem safe_float_total_default_witness :
    safe_float (JVal.str "None") (PFloat.finite 7) = PFloat.finite 7 :=
  (safe_float_total_default (JVal.str "None") (PFloat.finite 7)).1 (by decide)

/-- C4 counterexample: coercion does not always produce a finite float.  The
string `"inf"` converts to positive infinity even with a finite default;
with the NaN default that `parse_us10y` supplies, a failing input (the
vendor sentinel `"None"`) yields NaN; and a numeric string beyond the
binary64 range, such as `"1e400"`, overflows to infinity. -/
theorem safe_float_finite_counterexample :
    (safe_float (JVal.str "inf") (PFloat.finite 0)).isFinite = false
    ∧ (safe_float (JVal.str "None") PFloat.nan).isFinite = false
    ∧ (safe_float (JVal.str "1e400") (PFloat.finite 0)).isFinite = false := by
  refine ⟨by decide, by decide, ?_⟩
  have hdec : pyStrToFloat "1e400"
      = some (clampFinite false
          (((digitsVal ['1'] : ℚ) + (digitsVal [] : ℚ) / 10 ^ 0)
            * 10 ^ digitsVal ['4', '0', '0'])) := rfl
  have h1 : digitsVal ['1'] = 1 := by decide
  have h0 : digitsVal ([] : List Char) = 0 := by decide
  have h3 : digitsVal ['4', '0', '0'] = 400 := by decide
  have hge : ¬ (((1 : ℕ) : ℚ) + ((0 : ℕ) : ℚ) / 10 ^ 0) * 10 ^ (400 : ℕ) < overflowBound := by
    rw [overflowBound]
    norm_num
  have hinf : pyStrToFloat "1e400" = some (PFloat.inf false) := by
    rw [hdec, h1, h0, h3, clampFinite, if_neg hge]
  simp [safe_float, pyFloat, hinf, PFloat.isFinite]

/-- C4 amended: coercion produces a finite float provided the caller-supplied
default is finite and the input either fails conversion or converts to a
finite value (which excludes the strings denoting infinities and NaN, and
non-finite numeric inputs). -/
theorem safe_float_finite_amended (x : JVal) (d : PFloat) :
    d.isFinite = true →
    (pyFloat x = none ∨ ∃ q, pyFloat x = some (PFloat.finite q)) →
    (safe_float x d).isFinite = true := by
  intro hd hx
  rcases hx with hx | ⟨q, hx⟩
  · simp only [safe_float, hx]
    exact hd
  · simp [safe_float, hx, PFloat.isFinite]

/-- Witness for C4's amended theorem at the sentinel `"None"` with the
default 0 that the fundamentals callers use. -/
theorem safe_float_finite_amended_witness :
    (safe_float (JVal.str "None") (PFloat.finite 0)).isFinite = true :=
  safe_float_finite_amended (JVal.str "None") (PFloat.finite 0) (by decide)
    (Or.inl (by decide))

/-- C5: ROE normalization multiplies by 100 exactly when the coerced raw
value is ≤ 1 and is the identity otherwise; in particular 0.18 ↦ 18, 18 ↦ 18,
and the boundary value 1 is treated as a fraction (1 ↦ 100). -/
theorem roe_normalization (q : ℚ) :
    (q ≤ 1 → roeNormalize (PFloat.finite q) = PFloat.finite (q * 100))
    ∧ (1 < q → roeNormalize (PFloat.finite q) = PFloat.finite q)
    ∧ roeNormalize (PFloat.finite (18 / 100)) = PFloat.finite 18
    ∧ roeNormalize (PFloat.finite 18) = PFloat.finite 18
    ∧ roeNormalize (PFloat.finite 1) = PFloat.finite 100 := by
  refine ⟨fun h => ?_, fun h => ?_, ?_, ?_, ?_⟩
  · simp [roeNormalize, PFloat.le, PFloat.mul, h]
  · simp [roeNormalize, PFloat.le, PFloat.mul, not_le.mpr h]
  · norm_num [roeNormalize, PFloat.le, PFloat.mul]
  · norm_num [roeNormalize, PFloat.le, PFloat.mul]
  · norm_num [roeNormalize, PFloat.le, PFloat.mul]

/-- Witness for C5 at the fraction 1/2: the ≤ 1 branch multiplies by 100. -/
theorem roe_normalization_witness :
    ((1 : ℚ) / 2 ≤ 1) ∧ roeNormalize (PFloat.finite (1 / 2)) = PFloat.finite (1 / 2 * 100) :=
  ⟨by norm_num, (roe_normalization (1 / 2)).1 (by norm_num)⟩

/-- C10 (implicit): when the `Beta` field is absent or fails numeric
conversion, beta is coerced to the default 1, which is truthy and below the
1.3 threshold, so the beta term always adds 25 points (in contrast with a
zero beta, which is suppressed). -/
theorem beta_default_awards_points (ov : JVal) :
    pyFloat (ov.getKey "Beta") = none →
    betaOf ov = PFloat.finite 1
    ∧ (betaOf ov).isTruthy = true
    ∧ (betaOf ov).lt (PFloat.finite (13 / 10)) = true
    ∧ ∀ pe roe debt, score pe roe debt (betaOf ov) = score pe roe debt (PFloat.finite 0) + 25 := by
  intro h
  have hb : betaOf ov = PFloat.finite 1 := by simp [betaOf, safe_float, h]
  refine ⟨hb, by rw [hb]; decide, by rw [hb]; norm_num [PFloat.lt], fun pe roe debt => ?_⟩
  rw [hb]
  have h1 : ((PFloat.finite 1).isTruthy && (PFloat.finite 1).lt (PFloat.finite (13 / 10))) = true := by
    norm_num [PFloat.isTruthy, PFloat.lt]
  have hz : ((PFloat.finite 0).isTruthy && (PFloat.finite 0).lt (PFloat.finite (13 / 10))) = false := by
    norm_num [PFloat.isTruthy]
  simp only [score, h1, hz, if_true, if_false]
  simp

/-- Witness for C10: an overview whose `Beta` field is the vendor sentinel
string `"None"`. -/
theorem beta_default_awards_points_witness :
    betaOf (JVal.obj [("Beta", JVal.str "None")]) = PFloat.finite 1
    ∧ score (PFloat.finite 10) (PFloat.finite 20) (PFloat.finite 50)
        (betaOf (JVal.obj [("Beta", JVal.str "None")]))
      = score (PFloat.finite 10) (PFloat.finite 20) (PFloat.finite 50) (PFloat.finite 0) + 25 :=
  ⟨(beta_default_awards_points (JVal.obj [("Beta", JVal.str "None")]) (by decide)).1,
   (beta_default_awards_points (JVal.obj [("Beta", JVal.str "None")]) (by decide)).2.2.2
      (PFloat.finite 10) (PFloat.finite 20) (PFloat.finite 50)⟩

theorem char_eq_of_toNat_eq {a b : Char} (h : a.toNat = b.toNat) : a = b :=
  Char.eq_of_val_eq (UInt32.toNat.inj h)

theorem isDigit_toNat {c : Char} (h : c.isDigit = true) :
    48 ≤ c.toNat ∧ c.toNat ≤ 57 := by
  simpa [Char.isDigit] using h

theorem parseDate_inj {s t : String} {n : ℕ}
    (hs : parseDate s = some n) (ht : parseDate t = some n) : s = t := by
  unfold parseDate at hs ht
  split at hs
  rotate_left
  · exact absurd hs (by simp)
  split at ht
  rotate_left
  · exact absurd ht (by simp)
  rename_i ls y1 y2 y3 y4 m1 m2 d1 d2 hsd lt2 z1 z2 z3 z4 p1 p2 e1 e2 htd
  split at hs
  rotate_left
  · exact absurd hs (by simp)
  rename_i hdig1
  dsimp only at hs
  split at hs
  rotate_left
  · exact absurd hs (by simp)
  rename_i hrange1
  split at ht
  rotate_left
  · exact absurd ht (by simp)
  rename_i hdig2
  dsimp only at ht
  split at ht
  rotate_left
  · exact absurd ht (by simp)
  rename_i hrange2
  injection hs with hs
  injection ht with ht
  simp only [Bool.and_eq_true] at hdig1 hdig2
  obtain ⟨⟨⟨⟨⟨⟨⟨hy1, hy2⟩, hy3⟩, hy4⟩, hm1⟩, hm2⟩, hd1⟩, hd2⟩ := hdig1
  obtain ⟨⟨⟨⟨⟨⟨⟨hz1, hz2⟩, hz3⟩, hz4⟩, hp1⟩, hp2⟩, he1⟩, he2⟩ := hdig2
  have by1 := isDigit_toNat hy1
  have by2 := isDigit_toNat hy2
  have by3 := isDigit_toNat hy3
  have by4 := isDigit_toNat hy4
  have bm1 := isDigit_toNat hm1
  have bm2 := isDigit_toNat hm2
  have bd1 := isDigit_toNat hd1
  have bd2 := isDigit_toNat hd2
  have bz1 := isDigit_toNat hz1
  have bz2 := isDigit_toNat hz2
  have bz3 := isDigit_toNat hz3
  have bz4 := isDigit_toNat hz4
  have bp1 := isDigit_toNat hp1
  have bp2 := isDigit_toNat hp2
  have be1 := isDigit_toNat he1
  have be2 := isDigit_toNat he2
  simp only [digitChar] at hs ht
  have q1 : y1 = z1 := char_eq_of_toNat_eq (by omega)
  have q2 : y2 = z2 := char_eq_of_toNat_eq (by omega)
  have q3 : y3 = z3 := char_eq_of_toNat_eq (by omega)
  have q4 : y4 = z4 := char_eq_of_toNat_eq (by omega)
  have q5 : m1 = p1 := char_eq_of_toNat_eq (by omega)
  have q6 : m2 = p2 := char_eq_of_toNat_eq (by omega)
  have q7 : d1 = e1 := char_eq_of_toNat_eq (by omega)
  have q8 : d2 = e2 := char_eq_of_toNat_eq (by omega)
  have hdata : s.data = t.data := by
    rw [hsd, htd, q1, q2, q3, q4, q5, q6, q7, q8]
  cases s
  cases t
  exact congrArg String.mk hdata

theorem parseRows_length {kvs : List (String × JVal)} {rows : List (ℕ × JVal)}
    (h : parseRows kvs = some rows) : rows.length = kvs.length := by
  induction kvs generalizing rows with
  | nil =>
    rw [parseRows] at h
    injection h with h
    subst h
    rfl
  | cons kv rest ih =>
    rw [parseRows] at h
    split at h
    · rename_i d fields rows0 hd hv hr
      injection h with h
      subst h
      simp [ih hr]
    · exact absurd h (by simp)

theorem parseRows_mem_date {kvs : List (String × JVal)} {rows : List (ℕ × JVal)} {d : ℕ}
    (h : parseRows kvs = some rows) (hm : d ∈ rows.map Prod.fst) :
    ∃ k ∈ kvs.map Prod.fst, parseDate k = some d := by
  induction kvs generalizing rows with
  | nil =>
    rw [parseRows] at h
    injection h with h
    subst h
    simp at hm
  | cons kv rest ih =>
    rw [parseRows] at h
    split at h
    · rename_i d0 fields rows0 hd hv hr
      injection h with h
      subst h
      simp only [List.map_cons, List.mem_cons] at hm
      rcases hm with hm | hm
      · exact ⟨kv.1, by simp, hm ▸ hd⟩
      · obtain ⟨k, hk, hpk⟩ := ih hr hm
        exact ⟨k, by simp [hk], hpk⟩
    · exact absurd h (by simp)

theorem parseRows_dates_nodup {kvs : List (String × JVal)} {rows : List (ℕ × JVal)}
    (hnd : (kvs.map Prod.fst).Nodup) (h : parseRows kvs = some rows) :
    (rows.map Prod.fst).Nodup := by
  induction kvs generalizing rows with
  | nil =>
    rw [parseRows] at h
    injection h with h
    subst h
    simp
  | cons kv rest ih =>
    rw [parseRows] at h
    split at h
    · rename_i d fields rows0 hd hv hr
      injection h with h
      subst h
      simp only [List.map_cons, List.nodup_cons] at hnd ⊢
      refine ⟨fun hmem => ?_, ih hnd.2 hr⟩
      obtain ⟨k, hk, hpk⟩ := parseRows_mem_date hr hmem
      have hkk : kv.1 = k := parseDate_inj hd hpk
      rw [← hkk] at hk
      exact hnd.1 hk
    · exact absurd h (by simp)

theorem sorted_dates_strict {rows : List (ℕ × JVal)}
    (hnd : (rows.map Prod.fst).Nodup) :
    ((List.insertionSort rowLE rows).map Prod.fst).Pairwise (· < ·) := by
  have hs : List.Sorted rowLE (List.insertionSort rowLE rows) :=
    List.sorted_insertionSort rowLE rows
  have hle : ((List.insertionSort rowLE rows).map Prod.fst).Pairwise (· ≤ ·) := by
    rw [List.pairwise_map]
    exact hs
  have hperm : List.Perm ((List.insertionSort rowLE rows).map Prod.fst) (rows.map Prod.fst) :=
    (List.perm_insertionSort rowLE rows).map Prod.fst
  have hnd2 : ((List.insertionSort rowLE rows).map Prod.fst).Nodup :=
    hperm.nodup_iff.mpr hnd
  exact (hle.and hnd2).imp fun h => lt_of_le_of_ne h.1 h.2

/-- C6: if the top-level time-series key is absent or maps to an empty
structure the parse returns an empty series without raising; and in a payload
of date-keyed records, a row whose close fails numeric coercion becomes a NaN
entry for its date while every row of the series is kept. -/
theorem parse_price_df_tolerant (raw : JVal) (kvs : List (String × JVal))
    (rows : List (ℕ × JVal)) :
    ((raw.dictGet "Time Series (Daily)" (JVal.obj []) = some JVal.null
        ∨ raw.dictGet "Time Series (Daily)" (JVal.obj []) = some (JVal.obj [])) →
      parse_price_df raw = some [])
    ∧ (parseRows kvs = some rows →
      ∃ out, parse_price_df (JVal.obj [("Time Series (Daily)", JVal.obj kvs)]) = some out
        ∧ out.length = kvs.length
        ∧ (∀ p ∈ rows, (p.1, rowClose p.2) ∈ out)
        ∧ (∀ p ∈ rows, pyFloat (p.2.getKey "4. close") = none → (p.1, PFloat.nan) ∈ out)) := by
  constructor
  · intro h
    rcases h with h | h <;> rw [parse_price_df, h] <;> rfl
  · intro hpr
    rcases kvs with _ | ⟨kv0, kvrest⟩
    · rw [parseRows] at hpr
      injection hpr with hpr
      subst hpr
      exact ⟨[], rfl, rfl, by simp, by simp⟩
    · refine ⟨(List.insertionSort rowLE rows).map (fun r => (r.1, rowClose r.2)),
        ?_, ?_, ?_, ?_⟩
      · rw [parse_price_df]
        simp [JVal.dictGet, lookupKey, JVal.isTruthy, hpr]
      · rw [List.length_map, List.length_insertionSort]
        exact parseRows_length hpr
      · intro p hp
        exact List.mem_map_of_mem _ (by simpa using hp)
      · intro p hp hfail
        have hcl : rowClose p.2 = PFloat.nan := by
          simp [rowClose, coerceNumeric, hfail]
        have hmem := List.mem_map_of_mem (fun r : ℕ × JVal => (r.1, rowClose r.2))
          (show p ∈ List.insertionSort rowLE rows by simpa using hp)
        simpa [hcl] using hmem

/-- C7: for every payload (whatever the order of its distinct date keys), a
successfully parsed price series has strictly increasing — hence unique —
dates. -/
theorem parse_price_df_sorted (raw : JVal) (out : List (ℕ × PFloat)) :
    (∀ kvs, raw.getKey "Time Series (Daily)" = JVal.obj kvs → (kvs.map Prod.fst).Nodup) →
    parse_price_df raw = some out →
    (out.map Prod.fst).Pairwise (· < ·) := by
  intro hnd hp
  rw [parse_price_df] at hp
  split at hp
  · exact absurd hp (by simp)
  rename_i ts hts
  split at hp
  · split at hp
    · rename_i kvs htrue
      split at hp
      · rename_i rows hrows
        injection hp with hp
        subst hp
        have hknd : (kvs.map Prod.fst).Nodup := by
          cases raw with
          | obj kvs0 =>
            rw [JVal.dictGet] at hts
            injection hts with hts
            cases hg : lookupKey "Time Series (Daily)" kvs0 with
            | none =>
              rw [hg, Option.getD_none] at hts
              injection hts with hts
              rw [← hts]
              simp
            | some v =>
              rw [hg, Option.getD_some] at hts
              exact hnd kvs (by simp [JVal.getKey, JVal.getD, JVal.getOpt, hg, hts])
          | null => exact absurd hts (by simp [JVal.dictGet])
          | bool b => exact absurd hts (by simp [JVal.dictGet])
          | num q => exact absurd hts (by simp [JVal.dictGet])
          | str s => exact absurd hts (by simp [JVal.dictGet])
          | arr xs => exact absurd hts (by simp [JVal.dictGet])
        have hstrict := sorted_dates_strict (parseRows_dates_nodup hknd hrows)
        simpa [List.map_map, Function.comp] using hstrict
      · exact absurd hp (by simp)
    · exact absurd hp (by simp)
  · injection hp with hp
    subst hp
    simp

/-- Witness for C6: an empty payload parses to the empty series, and in a
two-row series whose newer row has an unparseable close, that row survives
as a NaN entry. -/
theorem parse_price_df_tolerant_witness :
    parse_price_df (JVal.obj []) = some []
    ∧ (20240105, PFloat.nan) ∈
        (parse_price_df (JVal.obj [("Time Series (Daily)", JVal.obj
          [("2024-01-05", JVal.obj [("4. close", JVal.str "oops")]),
           ("2024-01-03", JVal.obj [("4. close", JVal.num 100)])])])).getD [] := by
  refine ⟨(parse_price_df_tolerant (JVal.obj []) [] []).1 (Or.inr rfl), ?_⟩
  obtain ⟨out, h1, h2, h3, h4⟩ :=
    (parse_price_df_tolerant (JVal.obj [])
      [("2024-01-05", JVal.obj [("4. close", JVal.str "oops")]),
       ("2024-01-03", JVal.obj [("4. close", JVal.num 100)])]
      [(20240105, JVal.obj [("4. close", JVal.str "oops")]),
       (20240103, JVal.obj [("4. close", JVal.num 100)])]).2 rfl
  rw [h1]
  exact h4 (20240105, JVal.obj [("4. close", JVal.str "oops")])
    (List.mem_cons_self _ _) (by decide)

/-- Witness for C7: a payload listing 2024-01-05 before 2024-01-03 parses to
a series with strictly increasing dates. -/
theorem parse_price_df_sorted_witness :
    ([(20240103, PFloat.finite 100), (20240105, PFloat.finite 101)].map
        (Prod.fst : ℕ × PFloat → ℕ)).Pairwise (· < ·) :=
  parse_price_df_sorted
    (JVal.obj [("Time Series (Daily)", JVal.obj
      [("2024-01-05", JVal.obj [("4. close", JVal.num 101)]),
       ("2024-01-03", JVal.obj [("4. close", JVal.num 100)])])])
    [(20240103, PFloat.finite 100), (20240105, PFloat.finite 101)]
    (fun kvs h => by
      injection h with h
      rw [← h]
      decide)
    rfl

/-- C9: macro-rate parsing returns the first observation's `"value"` coerced
to a float (with the NaN default), e.g. 4.25 for a single observation with
value `"4.25"`; an absent or empty observations sequence yields the NaN
("unavailable") sentinel rather than an exception. -/
theorem parse_us10y_contract (raw : JVal) :
    ((raw.dictGet "observations" (JVal.arr []) = some JVal.null
        ∨ raw.dictGet "observations" (JVal.arr []) = some (JVal.arr [])) →
      parse_us10y raw = some PFloat.nan)
    ∧ (∀ o rest fields, raw.dictGet "observations" (JVal.arr []) = some (JVal.arr (o :: rest)) →
        o = JVal.obj fields →
        parse_us10y raw = some (safe_float (o.getKey "value") PFloat.nan))
    ∧ parse_us10y (JVal.obj [("observations",
        JVal.arr [JVal.obj [("value", JVal.str "4.25")]])])
      = some (PFloat.finite (17 / 4)) := by
  refine ⟨?_, ?_, ?_⟩
  · intro h
    rcases h with h | h <;> rw [parse_us10y, h] <;> rfl
  · intro o rest fields hobs ho
    rw [parse_us10y, hobs]
    subst ho
    simp [JVal.isTruthy]
  · have hdec : pyStrToFloat "4.25"
        = some (clampFinite false
            ((digitsVal ['4'] : ℚ) + (digitsVal ['2', '5'] : ℚ) / 10 ^ 2)) := rfl
    have h1 : digitsVal ['4'] = 4 := by decide
    have h2 : digitsVal ['2', '5'] = 25 := by decide
    have hlt : ((4 : ℕ) : ℚ) + ((25 : ℕ) : ℚ) / 10 ^ 2 < overflowBound := by
      rw [overflowBound]
      norm_num
    have h425 : pyStrToFloat "4.25" = some (PFloat.finite (17 / 4)) := by
      rw [hdec, h1, h2, clampFinite, if_pos hlt]
      norm_num
    have hstep : parse_us10y (JVal.obj [("observations",
        JVal.arr [JVal.obj [("value", JVal.str "4.25")]])])
        = some (safe_float (JVal.str "4.25") PFloat.nan) := rfl
    rw [hstep]
    simp [safe_float, pyFloat, h425]

/-- Witness for C9: an empty overall payload gives the NaN sentinel, and a
one-observation list gives that observation's coerced value. -/
theorem parse_us10y_contract_witness :
    parse_us10y (JVal.obj []) = some PFloat.nan
    ∧ parse_us10y (JVal.obj [("observations", JVal.arr [JVal.obj []])])
        = some (safe_float ((JVal.obj []).getKey "value") PFloat.nan) :=
  ⟨(parse_us10y_contract (JVal.obj [])).1 (Or.inr rfl),
   (parse_us10y_contract (JVal.obj [("observations", JVal.arr [JVal.obj []])])).2.1
      (JVal.obj []) [] [] rfl rfl⟩
